import Mathlib

/-!
Verification development for the velocityback Strategy Trigger & Execution
Engine.  The definitions below are a shallow embedding of the TypeScript
sources:

* `src/src/services/strategy.ts`  — `StrategyService` (trigger sweep,
  execution preparation, finalization, user status updates);
* `src/src/services/rpc.ts`       — `RPCService` (primary/backup failover,
  `confirmTransaction` polling);
* `src/src/services/jupiter.ts`   — `JupiterService.buildSwapTransaction`
  (pre-build slippage check);
* `src/velocity-api-worker/src/routes/strategy.ts` — the HTTP route layer;
* the validation utilities (`validateAmount`, `validateStrategyRequest`).

The D1 database is modelled as an explicit record of the `strategies` and
`strategy_executions` tables; `unixepoch()` timestamps are threaded as an
explicit `now` parameter; network collaborators (price fetch, quote fetch,
swap build, RPC fetch) are oracle functions supplied by the caller, and a
thrown JavaScript exception is an `Except.error`.
-/

namespace Velocity

/-- Strategy kind, column `type` of table `strategies`
(`CHECK (type IN ('buy_dip', 'take_profit'))`). -/
inductive StrategyType where
| buy_dip
| take_profit
deriving DecidableEq, Repr

/-- Strategy status, column `status` of table `strategies`
(`CHECK (status IN ('active','paused','triggered','executed','failed'))`).
Rows of `strategy_executions` use the subset triggered/executed/failed of
the same value space. -/
inductive StrategyStatus where
| active
| paused
| triggered
| executed
| failed
deriving DecidableEq, Repr

/-- One row of the `strategies` table. -/
structure StrategyRow where
  id : String
  userId : String
  tokenMint : String
  tokenSymbol : String
  type : StrategyType
  triggerPrice : ℚ
  amount : String
  slippageBps : ℤ
  status : StrategyStatus
  createdAt : ℤ
  updatedAt : ℤ
  executedAt : Option ℤ
  txSignature : Option String
deriving DecidableEq, Repr

/-- One row of the `strategy_executions` table. -/
structure ExecRow where
  id : String
  strategyId : String
  triggerPrice : ℚ
  actualPrice : ℚ
  status : StrategyStatus
  errorMessage : Option String
  txSignature : Option String
  createdAt : ℤ
deriving DecidableEq, Repr

/-- The engine's durable state: the two tables the core reads and writes. -/
structure DB where
  strategies : List StrategyRow
  executions : List ExecRow
deriving DecidableEq, Repr

/-- Result record returned by `checkTriggers` for one evaluated strategy
(`{ strategyId, shouldTrigger, currentPrice }`, strategy.ts line 91). -/
structure TriggerResult where
  strategyId : String
  shouldTrigger : Bool
  currentPrice : ℚ
deriving DecidableEq, Repr

/-- Trigger condition of strategy.ts lines 99–103: `buy_dip` triggers when
`currentPrice <= trigger_price`, `take_profit` when
`currentPrice >= trigger_price`. -/
def condHolds (t : StrategyType) (currentPrice triggerPrice : ℚ) : Bool :=
  match t with
  | .buy_dip => currentPrice ≤ triggerPrice
  | .take_profit => currentPrice ≥ triggerPrice

/-- The SQL `UPDATE strategies SET status = 'triggered',
updated_at = unixepoch() WHERE id = ?` of strategy.ts lines 112–114. -/
def setTriggered (now : ℤ) (id : String) (l : List StrategyRow) : List StrategyRow :=
  l.map fun s =>
    if s.id = id then { s with status := .triggered, updatedAt := now } else s

/-- The `INSERT INTO strategy_executions ... VALUES (?, ?, ?, ?, 'triggered',
unixepoch())` of strategy.ts lines 116–119. -/
def mkExecRow (rowId : String) (s : StrategyRow) (currentPrice : ℚ) (now : ℤ) : ExecRow :=
  { id := rowId
    strategyId := s.id
    triggerPrice := s.triggerPrice
    actualPrice := currentPrice
    status := .triggered
    errorMessage := none
    txSignature := none
    createdAt := now }

/-- Loop body of `checkTriggers` (strategy.ts lines 93–121), iterating over
the snapshot of active strategies.  `updOk`/`insOk` say whether the status
`UPDATE` resp. the attempt-row `INSERT` for a given strategy id succeeds; a
failing write is a thrown exception, which aborts the loop and discards the
results accumulated so far (the function throws).  `prices` is the batched
price map (`prices[mint] || 0` maps a missing entry to 0, line 94; a price
of 0 skips the strategy, line 95).  `freshId` supplies the
`crypto.randomUUID()` values for inserted rows, indexed by insertion count
`k`. -/
def sweepGo (updOk insOk : String → Bool) (prices : String → Option ℚ)
    (now : ℤ) (freshId : ℕ → String) :
    List StrategyRow → ℕ → DB → Except Unit (List TriggerResult) × DB × ℕ
  | [], _, db => (.ok [], db, 0)
  | s :: rest, k, db =>
    let currentPrice := (prices s.tokenMint).getD 0
    if currentPrice = 0 then
      sweepGo updOk insOk prices now freshId rest k db
    else
      let r : TriggerResult :=
        ⟨s.id, condHolds s.type currentPrice s.triggerPrice, currentPrice⟩
      if r.shouldTrigger then
        if updOk s.id then
          let db1 : DB := { db with strategies := setTriggered now s.id db.strategies }
          if insOk s.id then
            let db2 : DB :=
              { db1 with executions := db1.executions ++ [mkExecRow (freshId k) s currentPrice now] }
            let out := sweepGo updOk insOk prices now freshId rest (k + 1) db2
            (out.1.map (r :: ·), out.2)
          else (.error (), db1, k)
        else (.error (), db, k)
      else
        let out := sweepGo updOk insOk prices now freshId rest k db
        (out.1.map (r :: ·), out.2)

/-- `StrategyService.checkTriggers` (strategy.ts lines 81–124): load the
strategies with status `'active'`, return `[]` immediately if there are
none, otherwise evaluate each against the batched prices, transitioning the
triggering ones. -/
def checkTriggers (updOk insOk : String → Bool) (prices : String → Option ℚ)
    (now : ℤ) (freshId : ℕ → String) (db : DB) :
    Except Unit (List TriggerResult) × DB :=
  let act := db.strategies.filter (fun s => s.status = .active)
  if act.isEmpty then (.ok [], db)
  else
    let out := sweepGo updOk insOk prices now freshId act 0 db
    (out.1, out.2.1)

/-- `StrategyService.markStrategyExecuted` (strategy.ts lines 158–170):
`UPDATE strategies SET status='executed', executed_at=unixepoch(),
tx_signature=?, updated_at=unixepoch() WHERE id = ?`, then
`UPDATE strategy_executions SET status='executed', tx_signature=?
WHERE strategy_id = ? AND status = 'triggered'`. -/
def markStrategyExecuted (strategyId txSignature : String) (now : ℤ) (db : DB) : DB :=
  { strategies := db.strategies.map fun s =>
      if s.id = strategyId then
        { s with status := .executed, executedAt := some now,
                 txSignature := some txSignature, updatedAt := now }
      else s
    executions := db.executions.map fun e =>
      if e.strategyId = strategyId ∧ e.status = .triggered then
        { e with status := .executed, txSignature := some txSignature }
      else e }

/-- `StrategyService.markStrategyFailed` (strategy.ts lines 172–182). -/
def markStrategyFailed (strategyId errMsg : String) (now : ℤ) (db : DB) : DB :=
  { strategies := db.strategies.map fun s =>
      if s.id = strategyId then { s with status := .failed, updatedAt := now } else s
    executions := db.executions.map fun e =>
      if e.strategyId = strategyId ∧ e.status = .triggered then
        { e with status := .failed, errorMessage := some errMsg }
      else e }

/-- `StrategyService.updateStrategyStatus` (strategy.ts lines 65–71):
`UPDATE strategies SET status = ?, updated_at = unixepoch() WHERE id = ?
AND user_id = ?`; returns whether any row changed.  Note: no condition on
the row's current status. -/
def updateStrategyStatus (id userId : String) (status : StrategyStatus) (now : ℤ)
    (db : DB) : Bool × DB :=
  (db.strategies.any (fun s => s.id = id ∧ s.userId = userId),
   { db with strategies := db.strategies.map fun s =>
       if s.id = id ∧ s.userId = userId then { s with status := status, updatedAt := now }
       else s })

/-- `StrategyService.getStrategy` (strategy.ts lines 57–63). -/
def getStrategy (db : DB) (id userId : String) : Option StrategyRow :=
  db.strategies.find? (fun s => s.id = id ∧ s.userId = userId)

/-- Outcome of the `PUT /:id/status` route (routes/strategy.ts lines 57–74). -/
inductive StatusRouteOutcome where
| invalidStatus
| notFound
| ok
deriving DecidableEq, Repr

/-- The `PUT /:id/status` route (routes/strategy.ts lines 57–74): reject a
requested status outside the set consisting of active and paused, otherwise
run `updateStrategyStatus` and map `changed = false` to 404. -/
def putStatusRoute (db : DB) (id userId : String) (newStatus : StrategyStatus) (now : ℤ) :
    StatusRouteOutcome × DB :=
  if newStatus ≠ .active ∧ newStatus ≠ .paused then (.invalidStatus, db)
  else
    let out := updateStrategyStatus id userId newStatus now db
    if out.1 then (.ok, out.2) else (.notFound, out.2)

/-- Quote request sent by `prepareStrategyExecution` to
`JupiterService.getQuote` (strategy.ts lines 138–144). -/
structure QuoteRequest where
  inputMint : String
  outputMint : String
  amount : String
  slippageBps : ℤ
  userPublicKey : String
deriving DecidableEq, Repr

/-- One entry of a quote's `routePlan`; `hasSwapInfo` is the truthiness of
its `swapInfo` field, the only part `buildSwapTransaction` inspects. -/
structure RouteStep where
  hasSwapInfo : Bool
deriving DecidableEq, Repr

/-- The fields of the Jupiter quote response the engine consumes
(jupiter.ts lines 44–53).  `priceImpactPct` is the numeric value of the
decimal string returned by the API. -/
structure QuoteResponse where
  inputMint : String
  outputMint : String
  inAmount : String
  outAmount : String
  priceImpactPct : ℚ
  routePlan : List RouteStep
deriving DecidableEq, Repr

/-- The fields of the Jupiter swap-build response the engine consumes
(jupiter.ts lines 92–96). -/
structure SwapResponse where
  swapTransaction : String
  lastValidBlockHeight : ℤ
deriving DecidableEq, Repr

/-- JavaScript `parseInt` applied to the decimal rendering of a rational:
truncation toward zero. -/
def jsTruncToInt (q : ℚ) : ℤ :=
  if 0 ≤ q then ⌊q⌋ else -⌊-q⌋

/-- JavaScript `parseInt(envVar) || d`: an unset/non-numeric variable
(`none`, i.e. NaN) and an explicit 0 both fall back to the default. -/
def jsOrInt (x : Option ℤ) (d : ℤ) : ℤ :=
  match x with
  | some v => if v = 0 then d else v
  | none => d

/-- Error cases of `JupiterService.buildSwapTransaction`. -/
inductive SwapBuildErr where
| slippageTooHigh
| swapFetchFailed
deriving DecidableEq, Repr

/-- The quoted slippage computed by `JupiterService.buildSwapTransaction`
(jupiter.ts lines 58–60): `routePlan?.[0]?.swapInfo ?
parseInt(priceImpactPct) * 100 : 100`. -/
def quoteSlippage (q : QuoteResponse) : ℤ :=
  if ((q.routePlan.head?).map RouteStep.hasSwapInfo).getD false then
    jsTruncToInt q.priceImpactPct * 100
  else 100

/-- Body of `JupiterService.buildSwapTransaction`: throw when the computed
`quoteSlippage` exceeds `maxSlippage`, otherwise POST to the swap endpoint
(modelled by the `swapFetch` oracle). -/
def buildSwapTransaction (envMaxSlippageBps : Option ℤ)
    (swapFetch : Except Unit SwapResponse) (q : QuoteResponse) :
    Except SwapBuildErr SwapResponse :=
  let maxSlippage := jsOrInt envMaxSlippageBps 1000
  if quoteSlippage q > maxSlippage then .error .slippageTooHigh
  else
    match swapFetch with
    | .error _ => .error .swapFetchFailed
    | .ok sw => .ok sw

/-- The SOL mint constant of types/shared. -/
def SOL_MINT : String := "So11111111111111111111111111111111111111112"

/-- Error cases of `prepareStrategyExecution`.  The service throws a single
`'Strategy not found or not in triggered state'` error for both an unknown
id and a wrong status (strategy.ts line 132). -/
inductive PrepErr where
| notFoundOrNotTriggered
| quoteFailed
| slippageTooHigh
| swapBuildFailed
deriving DecidableEq, Repr

/-- Success payload of `prepareStrategyExecution` (strategy.ts lines
151–155). -/
structure PrepResult where
  strategy : StrategyRow
  quote : QuoteResponse
  swap : SwapResponse
deriving DecidableEq, Repr

/-- `StrategyService.prepareStrategyExecution` (strategy.ts lines 126–156):
`SELECT * FROM strategies WHERE id = ? AND status = 'triggered'`; throw if
no row; derive the swap direction from the strategy kind; fetch a quote for
the strategy's amount and slippage; build the swap transaction.  The
returned `Bool` records whether the pricing collaborator was called
(i.e. whether `getQuote` was requested); the `DB` is threaded to make state
(non-)mutation explicit — the source issues only a `SELECT`. -/
def prepareStrategyExecution
    (quoteFetch : QuoteRequest → Except Unit QuoteResponse)
    (swapFetch : Except Unit SwapResponse)
    (envMaxSlippageBps : Option ℤ)
    (db : DB) (strategyId userPublicKey : String) :
    Except PrepErr PrepResult × DB × Bool :=
  match db.strategies.find? (fun s => s.id = strategyId ∧ s.status = .triggered) with
  | none => (.error .notFoundOrNotTriggered, db, false)
  | some strategy =>
    let inputMint := if strategy.type = .buy_dip then SOL_MINT else strategy.tokenMint
    let outputMint := if strategy.type = .buy_dip then strategy.tokenMint else SOL_MINT
    match quoteFetch ⟨inputMint, outputMint, strategy.amount, strategy.slippageBps, userPublicKey⟩ with
    | .error _ => (.error .quoteFailed, db, true)
    | .ok quote =>
      match buildSwapTransaction envMaxSlippageBps swapFetch quote with
      | .error .slippageTooHigh => (.error .slippageTooHigh, db, true)
      | .error .swapFetchFailed => (.error .swapBuildFailed, db, true)
      | .ok swap => (.ok ⟨strategy, quote, swap⟩, db, true)

/-- Outcome of the `GET /:id/execute` route (routes/strategy.ts lines
90–113): 404 NOT_FOUND, 400 NOT_TRIGGERED, or 500 EXECUTION_ERROR. -/
inductive ExecRouteErr where
| notFound
| notTriggered
| executionFailed
deriving DecidableEq, Repr

/-- The `GET /:id/execute` route (routes/strategy.ts lines 90–113): look the
strategy up by id and owner, distinguish NOT_FOUND from NOT_TRIGGERED, then
delegate to `prepareStrategyExecution`.  As for the service, the returned
`Bool` records whether a quote was requested. -/
def executeRoute (quoteFetch : QuoteRequest → Except Unit QuoteResponse)
    (swapFetch : Except Unit SwapResponse) (envMaxSlippageBps : Option ℤ)
    (db : DB) (id userId publicKey : String) :
    Except ExecRouteErr PrepResult × DB × Bool :=
  match getStrategy db id userId with
  | none => (.error .notFound, db, false)
  | some strat =>
    if strat.status ≠ .triggered then (.error .notTriggered, db, false)
    else
      match prepareStrategyExecution quoteFetch swapFetch envMaxSlippageBps db id publicKey with
      | (.error _, db1, q) => (.error .executionFailed, db1, q)
      | (.ok r, db1, q) => (.ok r, db1, q)

/-- Endpoint configuration of `RPCService` (rpc.ts): `env.RPC_ENDPOINT`
and the optional `env.RPC_ENDPOINT_BACKUP`. -/
structure RPCEnv where
  primary : String
  backup : Option String
deriving DecidableEq, Repr

/-- Mutable failover state of `RPCService` (rpc.ts lines 5–6):
`primaryFailed` and `lastPrimaryCheck`. -/
structure RPCState where
  primaryFailed : Bool
  lastPrimaryCheck : ℤ
deriving DecidableEq, Repr

/-- `RETRY_INTERVAL = 30000` milliseconds (rpc.ts line 7). -/
def RETRY_INTERVAL : ℤ := 30000

/-- `RPCService.getEndpoint` (rpc.ts lines 53–62).  When `primaryFailed` is
set and the retry interval has elapsed, the flag is cleared and the primary
is returned; inside the interval the backup (when configured) is returned;
otherwise the primary. -/
def getEndpoint (env : RPCEnv) (now : ℤ) (st : RPCState) : RPCState × String :=
  if st.primaryFailed then
    if now - st.lastPrimaryCheck > RETRY_INTERVAL then
      ({ st with primaryFailed := false }, env.primary)
    else
      match env.backup with
      | some b => (st, b)
      | none => (st, env.primary)
  else (st, env.primary)

/-- `RPCService.call` (rpc.ts lines 13–51), fuel-indexed to embed the
self-recursion.  `attempt` is the outcome of one fetch against a given
endpoint within this logical call (`.error` covers an HTTP failure, a
non-ok status, or an error member in the JSON-RPC response, all of which
throw).  On success the `primaryFailed` flag is cleared; on failure, if the
flag is not set and a backup is configured, the flag is set with the
failure time recorded and the call recurses once; otherwise the error
propagates.  The returned list is the trace of endpoints attempted, in
order.  Fuel 2 is exact: the recursive call starts with `primaryFailed`
set and the window not yet elapsed, so it cannot recurse again
(`callAux_failed_state`). -/
def callAux {α : Type} (env : RPCEnv) (attempt : String → Except Unit α) (now : ℤ) :
    ℕ → RPCState → Except Unit α × RPCState × List String
  | 0, st => (.error (), st, [])
  | fuel + 1, st =>
    let out1 := getEndpoint env now st
    let st1 := out1.1
    let ep := out1.2
    match attempt ep with
    | .ok v =>
      (.ok v, if st1.primaryFailed then { st1 with primaryFailed := false } else st1, [ep])
    | .error e =>
      if ¬st1.primaryFailed ∧ (env.backup).isSome then
        let out := callAux env attempt now fuel ⟨true, now⟩
        (out.1, out.2.1, ep :: out.2.2)
      else (.error e, st1, [ep])

/-- One logical `RPCService.call`: the recursion depth is at most 2. -/
def call {α : Type} (env : RPCEnv) (attempt : String → Except Unit α) (now : ℤ)
    (st : RPCState) : Except Unit α × RPCState × List String :=
  callAux env attempt now 2 st

/-- The parts of a `getSignatureStatuses` entry that
`confirmTransaction` inspects (rpc.ts lines 113–122): the truthiness of
`status.err` and the `confirmationStatus` string. -/
structure SigStatus where
  hasErr : Bool
  confirmationStatus : String
deriving DecidableEq, Repr

/-- The check of rpc.ts lines 118–119. -/
def isConfirmedStatus (s : SigStatus) : Bool :=
  s.confirmationStatus = "confirmed" ∨ s.confirmationStatus = "finalized"

/-- The 60000 ms overall timeout of `confirmTransaction` (rpc.ts line 109). -/
def confirmTimeout : ℕ := 60000

/-- The polling loop of `RPCService.confirmTransaction` (rpc.ts lines
111–135), with `elapsed` the value of `Date.now() - start` in milliseconds.
`sigStatus` and `blockHeight` are the outcomes of the two RPC reads at a
given elapsed time (`.error` = the call threw, landing in the `catch` that
sleeps 2000 ms).  A resolved status returns immediately; otherwise the
block height is compared against `lastValidBlockHeight`; a quiet iteration
sleeps 1000 ms.  The second component of the result is the elapsed time at
which the function returns. -/
def confirmLoop (sigStatus : ℕ → Except Unit (Option SigStatus))
    (blockHeight : ℕ → Except Unit ℤ) (lastValidBlockHeight : ℤ)
    (elapsed : ℕ) : Bool × ℕ :=
  if h : elapsed < confirmTimeout then
    match sigStatus elapsed with
    | .error _ => confirmLoop sigStatus blockHeight lastValidBlockHeight (elapsed + 2000)
    | .ok st =>
      if (st.map SigStatus.hasErr).getD false then (false, elapsed)
      else if (st.map isConfirmedStatus).getD false then (true, elapsed)
      else
        match blockHeight elapsed with
        | .error _ => confirmLoop sigStatus blockHeight lastValidBlockHeight (elapsed + 2000)
        | .ok bh =>
          if bh > lastValidBlockHeight then (false, elapsed)
          else confirmLoop sigStatus blockHeight lastValidBlockHeight (elapsed + 1000)
  else (false, elapsed)
termination_by confirmTimeout - elapsed
decreasing_by
all_goals omega

/-- `RPCService.confirmTransaction` (rpc.ts lines 103–136): run the polling
loop from elapsed time 0. -/
def confirmTransaction (sigStatus : ℕ → Except Unit (Option SigStatus))
    (blockHeight : ℕ → Except Unit ℤ) (lastValidBlockHeight : ℤ) : Bool × ℕ :=
  confirmLoop sigStatus blockHeight lastValidBlockHeight 0

/-- Value of a nonempty all-digit character list, `none` otherwise. -/
def digitsVal? : List Char → Option ℕ
  | [] => none
  | cs =>
    if cs.all Char.isDigit then
      some (cs.foldl (fun a c => a * 10 + (c.toNat - 48)) 0)
    else none

/-- JavaScript `BigInt(string)` on the decimal numerals the amount field
carries: the empty string yields `0n`, an optional sign followed by digits
yields the signed value, and anything else throws a `SyntaxError`
(modelled as `none`). -/
def jsBigInt (s : String) : Option ℤ :=
  match s.data with
  | [] => some 0
  | '-' :: rest => (digitsVal? rest).map (fun n => -(n : ℤ))
  | '+' :: rest => (digitsVal? rest).map (fun n => (n : ℤ))
  | cs => (digitsVal? cs).map (fun n => (n : ℤ))

/-- The u64 upper bound `18446744073709551615n` of `validateAmount`. -/
def U64_MAX : ℤ := 18446744073709551615

/-- `validateAmount` (utils/validation lines 109–112): `const num =
BigInt(amount); return num > 0n && num <= 18446744073709551615n`.  The
`BigInt` conversion is not guarded by try/catch, so a malformed numeral
throws out of the function (`Except.error`). -/
def validateAmount (amount : String) : Except Unit Bool :=
  match jsBigInt amount with
  | none => .error ()
  | some num => .ok (decide (0 < num ∧ num ≤ U64_MAX))

/-- `validateSlippage` (utils/validation lines 114–116); the
`Number.isInteger` test is carried by the ℤ type of the model. -/
def validateSlippage (slippageBps maxBps : ℤ) : Bool :=
  decide (1 ≤ slippageBps ∧ slippageBps ≤ maxBps)

/-- `validatePrice` (utils/validation lines 118–120): a present, finite,
positive number; `none` models a missing or non-number field. -/
def validatePrice (p : Option ℚ) : Bool :=
  match p with
  | some v => decide (0 < v)
  | none => false

/-- Body of a `POST /api/v1/strategy` request as `validateStrategyRequest`
inspects it: the empty string models a missing/falsy string field, `none`
models a missing field or a value outside the expected type, and a `type`
value outside buy_dip/take_profit is modelled by `none`. -/
structure StrategyCreateBody where
  tokenMint : String
  tokenSymbol : String
  type : Option StrategyType
  triggerPrice : Option ℚ
  amount : String
  slippageBps : Option ℤ
deriving DecidableEq, Repr

/-- `validateStrategyRequest` (utils/validation lines 153–181), with
validation errors represented by the offending field names in source
order.  `mintOk` abstracts `validateMint` (a base58 decode of the
collaborator library; no claim depends on its internals).  The amount
check is `!body.amount || !validateAmount(body.amount)`: an empty (falsy)
amount short-circuits to a validation error, while a nonempty malformed
amount lets `validateAmount` throw, which propagates out of the whole
function. -/
def validateStrategyRequest (mintOk : String → Bool) (body : StrategyCreateBody)
    (maxSlippage : ℤ) : Except Unit (List String) :=
  let e1 : List String := if body.tokenMint = "" ∨ ¬mintOk body.tokenMint then ["tokenMint"] else []
  let e2 : List String :=
    if body.tokenSymbol = "" ∨ body.tokenSymbol.length > 20 then ["tokenSymbol"] else []
  let e3 : List String := if body.type = none then ["type"] else []
  let e4 : List String := if ¬validatePrice body.triggerPrice then ["triggerPrice"] else []
  match (if body.amount = "" then Except.ok true
         else (validateAmount body.amount).map (fun v => !v)) with
  | .error err => .error err
  | .ok amountBad =>
    let e5 : List String := if amountBad then ["amount"] else []
    let e6 : List String :=
      match body.slippageBps with
      | none => ["slippageBps"]
      | some bps => if ¬validateSlippage bps maxSlippage then ["slippageBps"] else []
    .ok (e1 ++ e2 ++ e3 ++ e4 ++ e5 ++ e6)

/-- Outcome of the `POST /` strategy-creation route: 400 VALIDATION_ERROR,
400 LIMIT_REACHED, 201-style success, or — when the handler throws — the
worker's `app.onError` 500 INTERNAL_ERROR response. -/
inductive PostOutcome where
| created
| validationFailed
| limitReached
| internalError
deriving DecidableEq, Repr

/-- The `POST /` route (routes/strategy.ts lines 20–41) composed with the
worker's `app.onError` handler: an exception thrown by
`validateStrategyRequest` escapes the handler (there is no try/catch
around it) and surfaces as the generic 500 INTERNAL_ERROR response rather
than a 400 validation result. -/
def postStrategy (mintOk : String → Bool) (envMaxSlippageBps : Option ℤ)
    (db : DB) (userId : String) (body : StrategyCreateBody) : PostOutcome :=
  let maxSlippage := jsOrInt envMaxSlippageBps 1000
  match validateStrategyRequest mintOk body maxSlippage with
  | .error _ => .internalError
  | .ok errs =>
    if errs ≠ [] then .validationFailed
    else
      let activeCount :=
        (db.strategies.filter (fun s => s.userId = userId ∧ s.status = .active)).length
      if activeCount ≥ 10 then .limitReached else .created

/-! ### Lemmas about the trigger sweep -/

/-- Oracle stating that every persistence write succeeds. -/
def allOk : String → Bool := fun _ => true

/-- The row update performed by the active→triggered transition. -/
def trigUpdate (now : ℤ) (t : StrategyRow) : StrategyRow :=
  { t with status := .triggered, updatedAt := now }

lemma setTriggered_eq (now : ℤ) (id : String) (l : List StrategyRow) :
    setTriggered now id l = l.map (fun t => if t.id = id then trigUpdate now t else t) := rfl

/-- Rows inserted into `strategy_executions` are never removed during a
sweep: membership in `executions` is preserved by `sweepGo`. -/
lemma sweepGo_executions_mono (u i : String → Bool) (prices : String → Option ℚ)
    (now : ℤ) (f : ℕ → String) :
    ∀ (l : List StrategyRow) (k : ℕ) (db : DB) (e : ExecRow),
      e ∈ db.executions → e ∈ (sweepGo u i prices now f l k db).2.1.executions := by
  intro l
  induction l with
  | nil => intro k db e he; simpa [sweepGo] using he
  | cons s rest ih =>
    intro k db e he
    simp only [sweepGo]
    split
    · exact ih k db e he
    · split
      · split
        · split
          · exact ih (k + 1) _ e (by simp [he])
          · simpa using he
        · simpa using he
      · exact ih k db e he

/-- The strategies table after a (possibly aborted) sweep is the original
table with the rows of some subset of the processed ids set to
triggered. -/
lemma sweepGo_strategies_shape (u i : String → Bool) (prices : String → Option ℚ)
    (now : ℤ) (f : ℕ → String) :
    ∀ (l : List StrategyRow) (k : ℕ) (db : DB), ∃ ids : List String,
      (∀ x ∈ ids, x ∈ l.map StrategyRow.id) ∧
      (sweepGo u i prices now f l k db).2.1.strategies =
        db.strategies.map (fun t => if t.id ∈ ids then trigUpdate now t else t) := by
  intro l
  induction l with
  | nil =>
    intro k db
    exact ⟨[], by simp, by simp [sweepGo]⟩
  | cons s rest ih =>
    intro k db
    simp only [sweepGo]
    split
    · obtain ⟨ids, hsub, heq⟩ := ih k db
      exact ⟨ids, fun x hx => by simpa using Or.inr (by simpa using hsub x hx), heq⟩
    · split
      · split
        · split
          · obtain ⟨ids, hsub, heq⟩ :=
              ih (k + 1) { strategies := setTriggered now s.id db.strategies,
                           executions := db.executions ++
                             [mkExecRow (f k) s ((prices s.tokenMint).getD 0) now] }
            refine ⟨s.id :: ids, ?_, ?_⟩
            · intro x hx
              rcases List.mem_cons.mp hx with h | h
              · simp [h]
              · simpa using Or.inr (by simpa using hsub x h)
            · refine heq.trans ?_
              simp only [setTriggered_eq, List.map_map]
              apply List.map_congr_left
              intro t _
              by_cases h1 : t.id = s.id
              · by_cases h2 : t.id ∈ ids <;>
                  simp [h1, h2, trigUpdate, Function.comp]
              · by_cases h2 : t.id ∈ ids <;>
                  simp [h1, h2, trigUpdate, Function.comp]
          · refine ⟨[s.id], by simp, ?_⟩
            simp only [setTriggered_eq]
            apply List.map_congr_left
            intro t _
            by_cases h1 : t.id = s.id <;> simp [h1]
        · exact ⟨[], by simp, by simp⟩
      · obtain ⟨ids, hsub, heq⟩ := ih k db
        exact ⟨ids, fun x hx => by simpa using Or.inr (by simpa using hsub x hx), heq⟩

/-- The evaluation record produced for one strategy of the snapshot:
skipped when its price resolves to 0, otherwise its id, whether the
condition holds, and the observed price. -/
def triggerResults (prices : String → Option ℚ) (l : List StrategyRow) : List TriggerResult :=
  l.filterMap fun s =>
    if (prices s.tokenMint).getD 0 = 0 then none
    else some ⟨s.id, condHolds s.type ((prices s.tokenMint).getD 0) s.triggerPrice,
               (prices s.tokenMint).getD 0⟩

/-- Ids of the snapshot strategies whose price resolves and whose trigger
condition holds. -/
def trigIds (prices : String → Option ℚ) (l : List StrategyRow) : List String :=
  (l.filter fun s =>
      ¬(prices s.tokenMint).getD 0 = 0 ∧
        condHolds s.type ((prices s.tokenMint).getD 0) s.triggerPrice = true).map
    StrategyRow.id

/-- With every persistence write succeeding, the sweep returns the
evaluation record of every strategy whose price resolved. -/
lemma sweepGo_allOk_res (prices : String → Option ℚ) (now : ℤ) (f : ℕ → String) :
    ∀ (l : List StrategyRow) (k : ℕ) (db : DB),
      (sweepGo allOk allOk prices now f l k db).1 = .ok (triggerResults prices l) := by
  intro l
  induction l with
  | nil => intro k db; simp [sweepGo, triggerResults]
  | cons s rest ih =>
    intro k db
    simp only [sweepGo, allOk]
    by_cases hp : (prices s.tokenMint).getD 0 = 0
    · simp [hp, ih, triggerResults, List.filterMap_cons]
    · by_cases hc : condHolds s.type ((prices s.tokenMint).getD 0) s.triggerPrice
      · simp [hp, hc, ih, triggerResults, List.filterMap_cons, Except.map]
      · simp only [hp, if_false, hc]
        simp [hp, hc, ih, triggerResults, List.filterMap_cons, Except.map]

/-- With every persistence write succeeding, the strategies table after the
sweep is the original one with exactly the triggering rows set to
triggered. -/
lemma sweepGo_allOk_strategies (prices : String → Option ℚ) (now : ℤ) (f : ℕ → String) :
    ∀ (l : List StrategyRow) (k : ℕ) (db : DB),
      (sweepGo allOk allOk prices now f l k db).2.1.strategies =
        db.strategies.map
          (fun t => if t.id ∈ trigIds prices l then trigUpdate now t else t) := by
  intro l
  induction l with
  | nil => intro k db; simp [sweepGo, trigIds]
  | cons s rest ih =>
    intro k db
    simp only [sweepGo, allOk]
    by_cases hp : (prices s.tokenMint).getD 0 = 0
    · rw [if_pos hp, ih]
      have : trigIds prices (s :: rest) = trigIds prices rest := by
        simp [trigIds, List.filter_cons, hp]
      rw [this]
    · by_cases hc : condHolds s.type ((prices s.tokenMint).getD 0) s.triggerPrice
      · rw [if_neg hp]
        have hids : trigIds prices (s :: rest) = s.id :: trigIds prices rest := by
          simp [trigIds, List.filter_cons, hp, hc]
        rw [hids]
        simp only [hc, eq_self_iff_true, if_true]
        have := ih (k + 1)
          { strategies := setTriggered now s.id db.strategies,
            executions := db.executions ++
              [mkExecRow (f k) s ((prices s.tokenMint).getD 0) now] }
        refine this.trans ?_
        simp only [setTriggered_eq, List.map_map]
        apply List.map_congr_left
        intro t _
        by_cases h1 : t.id = s.id
        · by_cases h2 : t.id ∈ trigIds prices rest <;>
            simp [h1, h2, trigUpdate, Function.comp]
        · by_cases h2 : t.id ∈ trigIds prices rest <;>
            simp [h1, h2, trigUpdate, Function.comp]
      · have hids : trigIds prices (s :: rest) = trigIds prices rest := by
          simp [trigIds, List.filter_cons, hp, hc]
        have hcb : condHolds s.type ((prices s.tokenMint).getD 0) s.triggerPrice = false := by
          simpa using hc
        rw [if_neg hp, hids]
        simp only [hcb, Bool.false_eq_true, if_false]
        exact ih k db

/-- With every persistence write succeeding, each triggering snapshot
strategy gets an execution-attempt row with status triggered, the
strategy's trigger price, and the observed price. -/
lemma sweepGo_allOk_exec (prices : String → Option ℚ) (now : ℤ) (f : ℕ → String) :
    ∀ (l : List StrategyRow) (k : ℕ) (db : DB) (s : StrategyRow) (p : ℚ),
      s ∈ l → prices s.tokenMint = some p → p ≠ 0 →
      condHolds s.type p s.triggerPrice = true →
      ∃ e ∈ (sweepGo allOk allOk prices now f l k db).2.1.executions,
        e.strategyId = s.id ∧ e.status = .triggered ∧
          e.triggerPrice = s.triggerPrice ∧ e.actualPrice = p := by
  intro l
  induction l with
  | nil => intro k db s p hs; exact absurd hs (List.not_mem_nil s)
  | cons t rest ih =>
    intro k db s p hs hp hpz hc
    rcases List.mem_cons.mp hs with rfl | hs
    · have hgd : (prices s.tokenMint).getD 0 = p := by simp [hp]
      simp only [sweepGo, allOk, hgd]
      rw [if_neg hpz]
      simp only [hc, eq_self_iff_true, if_true]
      refine ⟨mkExecRow (f k) s p now, ?_, by simp [mkExecRow]⟩
      exact sweepGo_executions_mono _ _ prices now f rest (k + 1) _ _ (by simp)
    · simp only [sweepGo, allOk]
      by_cases hq : (prices t.tokenMint).getD 0 = 0
      · rw [if_pos hq]
        exact ih k db s p hs hp hpz hc
      · rw [if_neg hq]
        by_cases hct : condHolds t.type ((prices t.tokenMint).getD 0) t.triggerPrice
        · simp only [hct, eq_self_iff_true, if_true]
          exact ih (k + 1) _ s p hs hp hpz hc
        · have hcb : condHolds t.type ((prices t.tokenMint).getD 0) t.triggerPrice = false := by
            simpa using hct
          simp only [hcb, Bool.false_eq_true, if_false]
          exact ih k db s p hs hp hpz hc

/-- The trigger condition as the claim states it. -/
lemma condHolds_iff (t : StrategyType) (p trig : ℚ) :
    condHolds t p trig = true ↔
      (t = .buy_dip ∧ p ≤ trig) ∨ (t = .take_profit ∧ trig ≤ p) := by
  cases t <;> simp [condHolds, ge_iff_le]

/-- Rows with equal ids in a table whose id column is duplicate-free are
equal. -/
lemma row_eq_of_id_eq {db : List StrategyRow}
    (hnodup : (db.map StrategyRow.id).Nodup) {a b : StrategyRow}
    (ha : a ∈ db) (hb : b ∈ db) (hid : a.id = b.id) : a = b :=
  List.inj_on_of_nodup_map hnodup ha hb hid

/-- A sweep never touches the row of a non-active strategy: the row is
still present afterwards, and every row carrying its id is that original
row.  Holds for arbitrary persistence-failure and price oracles. -/
lemma checkTriggers_nonactive (updOk insOk : String → Bool) (prices : String → Option ℚ)
    (now : ℤ) (freshId : ℕ → String) (db : DB) (t : StrategyRow)
    (hnodup : (db.strategies.map StrategyRow.id).Nodup)
    (ht : t ∈ db.strategies) (hst : t.status ≠ .active) :
    t ∈ (checkTriggers updOk insOk prices now freshId db).2.strategies ∧
    ∀ u ∈ (checkTriggers updOk insOk prices now freshId db).2.strategies,
      u.id = t.id → u = t := by
  by_cases hemp : (db.strategies.filter (fun s => s.status = .active)).isEmpty = true
  · simp only [checkTriggers, hemp, if_true]
    exact ⟨ht, fun u hu hid => row_eq_of_id_eq hnodup hu ht hid⟩
  · have hck : checkTriggers updOk insOk prices now freshId db =
        ((sweepGo updOk insOk prices now freshId
            (db.strategies.filter (fun s => s.status = .active)) 0 db).1,
         (sweepGo updOk insOk prices now freshId
            (db.strategies.filter (fun s => s.status = .active)) 0 db).2.1) := by
      simp only [checkTriggers, hemp, Bool.false_eq_true, if_false]
    obtain ⟨ids, hsub, heq⟩ := sweepGo_strategies_shape updOk insOk prices now freshId
      (db.strategies.filter (fun s => s.status = .active)) 0 db
    have hid_not : t.id ∉ ids := by
      intro hmem
      obtain ⟨u, hu, huid⟩ := List.mem_map.mp (hsub t.id hmem)
      have hu2 := List.mem_filter.mp hu
      have : u = t := row_eq_of_id_eq hnodup hu2.1 ht huid
      rw [this] at hu2
      exact hst (by simpa using hu2.2)
    rw [hck]
    simp only []
    rw [heq]
    constructor
    · exact List.mem_map.mpr ⟨t, ht, by simp [hid_not]⟩
    · intro u hu hid
      obtain ⟨t0, ht0, ht0eq⟩ := List.mem_map.mp hu
      have hpid : t0.id = t.id := by
        rw [← hid, ← ht0eq]
        by_cases hc : t0.id ∈ ids <;> simp [hc, trigUpdate]
      have : t0 = t := row_eq_of_id_eq hnodup ht0 ht hpid
      subst this
      rw [← ht0eq]
      simp [hid_not]

/-- C9: for every strategy whose status is not active, a run of
evaluateTriggers leaves that strategy's status unchanged, regardless of the
prices observed (and of which persistence writes succeed): the original row
is still in the table, and every row with its id is that row. -/
theorem checkTriggers_frame_nonactive (updOk insOk : String → Bool)
    (prices : String → Option ℚ) (now : ℤ) (freshId : ℕ → String) (db : DB)
    (t : StrategyRow)
    (hnodup : (db.strategies.map StrategyRow.id).Nodup)
    (ht : t ∈ db.strategies) (hst : t.status ≠ .active) :
    t ∈ (checkTriggers updOk insOk prices now freshId db).2.strategies ∧
    ∀ u ∈ (checkTriggers updOk insOk prices now freshId db).2.strategies,
      u.id = t.id → u = t :=
  checkTriggers_nonactive updOk insOk prices now freshId db t hnodup ht hst

/-- C9 witness: a paused strategy is untouched by a sweep that triggers an
active one. -/
theorem checkTriggers_frame_nonactive_witness :
    let sA : StrategyRow :=
      ⟨"A", "U", "M", "TOK", .buy_dip, 100, "5", 50, .active, 0, 0, none, none⟩
    let sB : StrategyRow :=
      ⟨"B", "U", "M", "TOK", .buy_dip, 100, "5", 50, .paused, 0, 0, none, none⟩
    let db : DB := ⟨[sA, sB], []⟩
    sB ∈ (checkTriggers allOk allOk (fun _ => some 90) 7 (fun _ => "E") db).2.strategies ∧
    ∀ u ∈ (checkTriggers allOk allOk (fun _ => some 90) 7 (fun _ => "E") db).2.strategies,
      u.id = "B" → u = sB := by
  intro sA sB db
  exact checkTriggers_frame_nonactive allOk allOk (fun _ => some 90) 7 (fun _ => "E") db sB
    (by decide) (by decide) (by decide)

/-- C1: in a sweep in which every persistence write succeeds, every active
strategy whose fetched price p is positive is reported with didTrigger =
true, has its row set to triggered, and gets an execution-attempt row with
status triggered, its trigger price and observed price p, exactly when
(buy_dip and p ≤ trigger_price) or (take_profit and p ≥ trigger_price);
otherwise it is reported with didTrigger = false and its row stays active
and unchanged. -/
theorem checkTriggers_trigger_spec
    (prices : String → Option ℚ) (now : ℤ) (freshId : ℕ → String) (db : DB)
    (s : StrategyRow) (p : ℚ)
    (hnodup : (db.strategies.map StrategyRow.id).Nodup)
    (hs : s ∈ db.strategies) (hactive : s.status = .active)
    (hp : prices s.tokenMint = some p) (hpos : 0 < p) :
    ∃ res, (checkTriggers allOk allOk prices now freshId db).1 = .ok res ∧
      (((s.type = .buy_dip ∧ p ≤ s.triggerPrice) ∨
          (s.type = .take_profit ∧ s.triggerPrice ≤ p)) →
        (⟨s.id, true, p⟩ : TriggerResult) ∈ res ∧
        { s with status := .triggered, updatedAt := now } ∈
          (checkTriggers allOk allOk prices now freshId db).2.strategies ∧
        ∃ e ∈ (checkTriggers allOk allOk prices now freshId db).2.executions,
          e.strategyId = s.id ∧ e.status = .triggered ∧
            e.triggerPrice = s.triggerPrice ∧ e.actualPrice = p) ∧
      (¬((s.type = .buy_dip ∧ p ≤ s.triggerPrice) ∨
          (s.type = .take_profit ∧ s.triggerPrice ≤ p)) →
        (⟨s.id, false, p⟩ : TriggerResult) ∈ res ∧
        s ∈ (checkTriggers allOk allOk prices now freshId db).2.strategies) := by
  have hpz : p ≠ 0 := ne_of_gt hpos
  have hgd : (prices s.tokenMint).getD 0 = p := by simp [hp]
  set act := db.strategies.filter (fun u => u.status = .active) with hact
  have hsact : s ∈ act := List.mem_filter.mpr ⟨hs, by simp [hactive]⟩
  have hemp : act.isEmpty = false := by
    cases hactl : act with
    | nil => rw [hactl] at hsact; cases hsact
    | cons a l => simp [List.isEmpty]
  have h1 : (checkTriggers allOk allOk prices now freshId db).1 =
      (sweepGo allOk allOk prices now freshId act 0 db).1 := by
    simp only [checkTriggers, ← hact, hemp, Bool.false_eq_true, if_false]
  have h2 : (checkTriggers allOk allOk prices now freshId db).2 =
      (sweepGo allOk allOk prices now freshId act 0 db).2.1 := by
    simp only [checkTriggers, ← hact, hemp, Bool.false_eq_true, if_false]
  refine ⟨triggerResults prices act, ?_, ?_, ?_⟩
  · rw [h1]; exact sweepGo_allOk_res prices now freshId act 0 db
  · intro hcond
    have hc : condHolds s.type p s.triggerPrice = true := (condHolds_iff _ _ _).mpr hcond
    refine ⟨?_, ?_, ?_⟩
    · unfold triggerResults
      refine List.mem_filterMap.mpr ⟨s, hsact, ?_⟩
      rw [hgd, if_neg hpz]
      simp [hc]
    · rw [h2, sweepGo_allOk_strategies]
      have hmemid : s.id ∈ trigIds prices act :=
        List.mem_map.mpr ⟨s, List.mem_filter.mpr ⟨hsact, by simp [hgd, hpz, hc]⟩, rfl⟩
      exact List.mem_map.mpr ⟨s, hs, by simp [hmemid, trigUpdate]⟩
    · rw [h2]
      exact sweepGo_allOk_exec prices now freshId act 0 db s p hsact hp hpz hc
  · intro hcond
    have hcb : condHolds s.type p s.triggerPrice = false :=
      Bool.eq_false_iff.mpr (fun h => hcond ((condHolds_iff _ _ _).mp h))
    refine ⟨?_, ?_⟩
    · unfold triggerResults
      refine List.mem_filterMap.mpr ⟨s, hsact, ?_⟩
      rw [hgd, if_neg hpz]
      simp [hcb]
    · rw [h2, sweepGo_allOk_strategies]
      have hnotin : s.id ∉ trigIds prices act := by
        intro hmem
        obtain ⟨u, hu, huid⟩ := List.mem_map.mp hmem
        have hupred := (List.mem_filter.mp hu).2
        have humem := (List.mem_filter.mp (List.mem_filter.mp hu).1).1
        have hus : u = s := row_eq_of_id_eq hnodup humem hs huid
        subst hus
        rw [hgd] at hupred
        simp [hpz, hcb] at hupred
      exact List.mem_map.mpr ⟨s, hs, by simp [hnotin]⟩

/-- C1 witness: the scenario of the spec — a take_profit strategy with
trigger price 150 observed at price 160 triggers. -/
theorem checkTriggers_trigger_spec_witness :
    let s : StrategyRow :=
      ⟨"S1", "U", "M", "TOK", .take_profit, 150, "1000000000", 50, .active, 0, 0, none, none⟩
    let db : DB := ⟨[s], []⟩
    ∃ res, (checkTriggers allOk allOk (fun _ => some 160) 99 (fun _ => "E") db).1 = .ok res ∧
      (((s.type = .buy_dip ∧ (160 : ℚ) ≤ s.triggerPrice) ∨
          (s.type = .take_profit ∧ s.triggerPrice ≤ (160 : ℚ))) →
        (⟨s.id, true, (160 : ℚ)⟩ : TriggerResult) ∈ res ∧
        { s with status := .triggered, updatedAt := 99 } ∈
          (checkTriggers allOk allOk (fun _ => some 160) 99 (fun _ => "E") db).2.strategies ∧
        ∃ e ∈ (checkTriggers allOk allOk (fun _ => some 160) 99 (fun _ => "E") db).2.executions,
          e.strategyId = s.id ∧ e.status = .triggered ∧
            e.triggerPrice = s.triggerPrice ∧ e.actualPrice = (160 : ℚ)) ∧
      (¬((s.type = .buy_dip ∧ (160 : ℚ) ≤ s.triggerPrice) ∨
          (s.type = .take_profit ∧ s.triggerPrice ≤ (160 : ℚ))) →
        (⟨s.id, false, (160 : ℚ)⟩ : TriggerResult) ∈ res ∧
        s ∈ (checkTriggers allOk allOk (fun _ => some 160) 99 (fun _ => "E") db).2.strategies) := by
  intro s db
  exact checkTriggers_trigger_spec (fun _ => some 160) 99 (fun _ => "E") db s 160
    (by decide) (by decide) (by decide) rfl (by norm_num)

/-- Rows with an id different from the one being updated pass through the
status update untouched. -/
lemma mem_setTriggered_of_ne {t : StrategyRow} {l : List StrategyRow} (ht : t ∈ l)
    {id : String} (hne : t.id ≠ id) (now : ℤ) : t ∈ setTriggered now id l := by
  rw [setTriggered_eq]
  exact List.mem_map.mpr ⟨t, ht, by simp [hne]⟩

/-- C6 counterexample: two active strategies both satisfy their condition;
the status-update write for the first ("A") fails.  The whole sweep returns
the error with the database unchanged: the second strategy ("B") is
neither evaluated nor transitioned, contradicting the claim that a
persistence error on one strategy's transition does not abort the
evaluation of the remaining active strategies. -/
theorem checkTriggers_persist_err_counterexample :
    let sA : StrategyRow :=
      ⟨"A", "U", "M", "TOK", .buy_dip, 100, "5", 50, .active, 0, 0, none, none⟩
    let sB : StrategyRow :=
      ⟨"B", "U", "N", "TOK2", .buy_dip, 100, "5", 50, .active, 0, 0, none, none⟩
    let db : DB := ⟨[sA, sB], []⟩
    checkTriggers (fun id => id ≠ "A") allOk (fun _ => some 90) 7 (fun _ => "E") db =
      (.error (), db) := by
  intro sA sB db
  rfl

/-- A failing status-update write for a triggering strategy, after a prefix
of strategies whose writes all succeed, aborts the sweep loop: the error
propagates and the rows of strategies not yet reached are untouched. -/
lemma sweepGo_abort (updOk insOk : String → Bool) (prices : String → Option ℚ)
    (now : ℤ) (f : ℕ → String) :
    ∀ (l1 : List StrategyRow) (s : StrategyRow) (l2 : List StrategyRow) (k : ℕ) (db : DB),
      (∀ t ∈ l1, (prices t.tokenMint).getD 0 ≠ 0 →
          condHolds t.type ((prices t.tokenMint).getD 0) t.triggerPrice = true →
          updOk t.id = true ∧ insOk t.id = true) →
      (prices s.tokenMint).getD 0 ≠ 0 →
      condHolds s.type ((prices s.tokenMint).getD 0) s.triggerPrice = true →
      updOk s.id = false →
      (sweepGo updOk insOk prices now f (l1 ++ s :: l2) k db).1 = .error () ∧
      ∀ t ∈ db.strategies, t.id ∉ (l1 ++ [s]).map StrategyRow.id →
        t ∈ (sweepGo updOk insOk prices now f (l1 ++ s :: l2) k db).2.1.strategies := by
  intro l1
  induction l1 with
  | nil =>
    intro s l2 k db _ hp hc hfail
    simp only [List.nil_append, sweepGo]
    rw [if_neg hp]
    simp only [hc, eq_self_iff_true, if_true, hfail, Bool.false_eq_true, if_false]
    exact ⟨trivial, fun t ht _ => ht⟩
  | cons h l1 ih =>
    intro s l2 k db hok hp hc hfail
    have hokh := hok h (by simp)
    have hoktl : ∀ t ∈ l1, (prices t.tokenMint).getD 0 ≠ 0 →
        condHolds t.type ((prices t.tokenMint).getD 0) t.triggerPrice = true →
        updOk t.id = true ∧ insOk t.id = true :=
      fun t ht => hok t (by simp [ht])
    have hids : ∀ t : StrategyRow, t.id ∉ ((h :: l1) ++ [s]).map StrategyRow.id →
        t.id ∉ (l1 ++ [s]).map StrategyRow.id ∧ t.id ≠ h.id := by
      intro t hid
      constructor
      · intro hm
        exact hid (by rw [List.cons_append, List.map_cons]; exact List.mem_cons.mpr (Or.inr hm))
      · intro heq
        exact hid (by
          rw [List.cons_append, List.map_cons, heq]
          exact List.mem_cons.mpr (Or.inl rfl))
    simp only [List.cons_append, sweepGo]
    by_cases hq : (prices h.tokenMint).getD 0 = 0
    · rw [if_pos hq]
      obtain ⟨he, hf⟩ := ih s l2 k db hoktl hp hc hfail
      exact ⟨he, fun t ht hid => hf t ht (hids t hid).1⟩
    · rw [if_neg hq]
      by_cases hcth : condHolds h.type ((prices h.tokenMint).getD 0) h.triggerPrice = true
      · obtain ⟨hu, hi⟩ := hokh hq hcth
        simp only [hcth, eq_self_iff_true, if_true, hu, hi]
        obtain ⟨he, hf⟩ := ih s l2 (k + 1)
          { strategies := setTriggered now h.id db.strategies,
            executions := db.executions ++
              [mkExecRow (f k) h ((prices h.tokenMint).getD 0) now] }
          hoktl hp hc hfail
        refine ⟨?_, ?_⟩
        · simp only [List.append_eq, Except.map, he]
        · intro t ht hid
          have ht2 : t ∈ setTriggered now h.id db.strategies :=
            mem_setTriggered_of_ne ht (hids t hid).2 now
          exact hf t ht2 (hids t hid).1
      · have hcb : condHolds h.type ((prices h.tokenMint).getD 0) h.triggerPrice = false := by
          simpa using hcth
        simp only [hcb, Bool.false_eq_true, if_false]
        obtain ⟨he, hf⟩ := ih s l2 k db hoktl hp hc hfail
        refine ⟨?_, ?_⟩
        · simp only [List.append_eq, Except.map, he]
        · intro t ht hid
          exact hf t ht (hids t hid).1

/-- C6 amended: a persistence error raised while transitioning one strategy
is not isolated — it aborts the sweep.  If the active snapshot is l1 ++ s
:: l2, every triggering strategy of the prefix l1 persists successfully,
and the status-update write for the triggering strategy s fails, then
evaluateTriggers propagates the error, and every strategy not in the
processed part (in particular all of l2, under distinct ids) keeps its
original row: it is neither evaluated nor transitioned in that sweep. -/
theorem checkTriggers_persist_err_aborts (updOk insOk : String → Bool)
    (prices : String → Option ℚ) (now : ℤ) (freshId : ℕ → String) (db : DB)
    (l1 : List StrategyRow) (s : StrategyRow) (l2 : List StrategyRow)
    (hsnap : db.strategies.filter (fun u => u.status = .active) = l1 ++ s :: l2)
    (hok : ∀ t ∈ l1, (prices t.tokenMint).getD 0 ≠ 0 →
        condHolds t.type ((prices t.tokenMint).getD 0) t.triggerPrice = true →
        updOk t.id = true ∧ insOk t.id = true)
    (hp : (prices s.tokenMint).getD 0 ≠ 0)
    (hc : condHolds s.type ((prices s.tokenMint).getD 0) s.triggerPrice = true)
    (hfail : updOk s.id = false) :
    (checkTriggers updOk insOk prices now freshId db).1 = .error () ∧
    ∀ t ∈ db.strategies, t.id ∉ (l1 ++ [s]).map StrategyRow.id →
      t ∈ (checkTriggers updOk insOk prices now freshId db).2.strategies := by
  have hemp : (db.strategies.filter (fun u => u.status = .active)).isEmpty = false := by
    rw [hsnap]
    cases l1 <;> simp [List.isEmpty]
  have hemp2 : (l1 ++ s :: l2).isEmpty = false := hsnap ▸ hemp
  have h1 : (checkTriggers updOk insOk prices now freshId db).1 =
      (sweepGo updOk insOk prices now freshId (l1 ++ s :: l2) 0 db).1 := by
    simp only [checkTriggers, hsnap, hemp2, Bool.false_eq_true, if_false]
  have h2 : (checkTriggers updOk insOk prices now freshId db).2 =
      (sweepGo updOk insOk prices now freshId (l1 ++ s :: l2) 0 db).2.1 := by
    simp only [checkTriggers, hsnap, hemp2, Bool.false_eq_true, if_false]
  obtain ⟨he, hf⟩ := sweepGo_abort updOk insOk prices now freshId l1 s l2 0 db hok hp hc hfail
  exact ⟨h1 ▸ he, fun t ht hid => h2 ▸ hf t ht hid⟩

/-- C6 amended witness: with snapshot [A, B], both triggering, and the
write for A failing, the sweep errors and B keeps its original row. -/
theorem checkTriggers_persist_err_aborts_witness :
    let sA : StrategyRow :=
      ⟨"A", "U", "M", "TOK", .buy_dip, 100, "5", 50, .active, 0, 0, none, none⟩
    let sB : StrategyRow :=
      ⟨"B", "U", "N", "TOK2", .buy_dip, 100, "5", 50, .active, 0, 0, none, none⟩
    let db : DB := ⟨[sA, sB], []⟩
    (checkTriggers (fun id => id ≠ "A") allOk (fun _ => some 90) 7 (fun _ => "E") db).1 =
      .error () ∧
    ∀ t ∈ db.strategies, t.id ∉ ([] ++ [sA]).map StrategyRow.id →
      t ∈ (checkTriggers (fun id => id ≠ "A") allOk (fun _ => some 90) 7
            (fun _ => "E") db).2.strategies := by
  intro sA sB db
  exact checkTriggers_persist_err_aborts (fun id => id ≠ "A") allOk (fun _ => some 90) 7
    (fun _ => "E") db [] sA [sB] (by decide) (by simp) (by decide) (by decide) (by decide)

/-- The database returned by the `PUT /:id/status` route, independent of
the changed/not-changed branch. -/
lemma putStatusRoute_snd (db : DB) (id uid : String) (st : StrategyStatus) (now : ℤ) :
    (putStatusRoute db id uid st now).2 =
      if st ≠ .active ∧ st ≠ .paused then db
      else (updateStrategyStatus id uid st now db).2 := by
  unfold putStatusRoute
  split
  · rfl
  · dsimp only
    split <;> rfl

/-- C7 counterexample: the user status route applied to a strategy whose
status is executed sets it back to active — the update has no condition on
the current status, so executed is not terminal. -/
theorem terminal_status_counterexample :
    let sE : StrategyRow :=
      ⟨"E1", "U", "M", "TOK", .buy_dip, 100, "5", 50, .executed, 0, 0, some 5, some "sig"⟩
    let db : DB := ⟨[sE], []⟩
    putStatusRoute db "E1" "U" .active 7 =
      (.ok, ⟨[{ sE with status := .active, updatedAt := 7 }], []⟩) := by
  intro sE db
  rfl

/-- C7 amended: executed and failed are not enforced as terminal.  The user
status update (PUT /:id/status) sets the status unconditionally by id and
owner, so it moves an executed or failed strategy back to active or paused;
markStrategyFailed and markStrategyExecuted likewise overwrite the row by
id regardless of its current status.  Among the engine operations only
evaluateTriggers leaves executed/failed strategies unchanged (it selects
only active rows). -/
theorem terminal_status_not_enforced (db : DB) (s : StrategyRow) (now : ℤ)
    (hs : s ∈ db.strategies)
    (hterm : s.status = .executed ∨ s.status = .failed) :
    ({ s with status := .active, updatedAt := now } ∈
      (putStatusRoute db s.id s.userId .active now).2.strategies) ∧
    ({ s with status := .failed, updatedAt := now } ∈
      (markStrategyFailed s.id "err" now db).strategies) ∧
    (∀ sig : String,
      { s with status := .executed, executedAt := some now,
               txSignature := some sig, updatedAt := now } ∈
        (markStrategyExecuted s.id sig now db).strategies) ∧
    ((db.strategies.map StrategyRow.id).Nodup →
      ∀ (updOk insOk : String → Bool) (prices : String → Option ℚ) (freshId : ℕ → String),
        s ∈ (checkTriggers updOk insOk prices now freshId db).2.strategies) := by
  refine ⟨?_, ?_, ?_, ?_⟩
  · rw [putStatusRoute_snd]
    simp only [ne_eq, not_true_eq_false, false_and, if_false, updateStrategyStatus]
    exact List.mem_map.mpr ⟨s, hs, by simp⟩
  · exact List.mem_map.mpr ⟨s, hs, by simp⟩
  · intro sig
    exact List.mem_map.mpr ⟨s, hs, by simp⟩
  · intro hnodup updOk insOk prices freshId
    have hne : s.status ≠ .active := by
      rcases hterm with h | h <;> simp [h]
    exact (checkTriggers_nonactive updOk insOk prices now freshId db s hnodup hs hne).1

/-- C7 amended witness: the executed strategy "E1" is re-activated by the
status route, overwritten by both finalizer entry points, and untouched by
a sweep. -/
theorem terminal_status_not_enforced_witness :
    let sE : StrategyRow :=
      ⟨"E1", "U", "M", "TOK", .buy_dip, 100, "5", 50, .executed, 0, 0, some 5, some "sig"⟩
    let db : DB := ⟨[sE], []⟩
    ({ sE with status := .active, updatedAt := 7 } ∈
      (putStatusRoute db "E1" "U" .active 7).2.strategies) ∧
    ({ sE with status := .failed, updatedAt := 7 } ∈
      (markStrategyFailed "E1" "err" 7 db).strategies) ∧
    ({ sE with status := .executed, executedAt := some 7,
               txSignature := some "sig2", updatedAt := 7 } ∈
      (markStrategyExecuted "E1" "sig2" 7 db).strategies) ∧
    (sE ∈ (checkTriggers allOk allOk (fun _ => some 90) 7 (fun _ => "X") db).2.strategies) := by
  intro sE db
  obtain ⟨h1, h2, h3, h4⟩ := terminal_status_not_enforced db sE 7 (by decide) (by decide)
  exact ⟨h1, h2, h3 "sig2", h4 (by decide) allOk allOk (fun _ => some 90) (fun _ => "X")⟩

/-- The fields of a strategy row the idempotence claim speaks about: id,
status, and transaction signature (the timestamps updated_at/executed_at
are rewritten on every call). -/
def stratCore (s : StrategyRow) : String × StrategyStatus × Option String :=
  (s.id, s.status, s.txSignature)

/-- C5: confirmExecution is idempotent.  After one call the strategy row
with the given id is executed and carries the signature, and every
triggered attempt row of that strategy is rewritten to executed with the
signature.  A second call with the same signature changes nothing: the
attempt table is untouched (no row is still 'triggered'), the strategy
table is identical up to the rewritten timestamps, and at an equal
timestamp the repeat call is literally the identity. -/
theorem markExecuted_idempotent (db : DB) (id sig : String) (now now2 : ℤ)
    (hsig : sig ≠ "") :
    (∀ s ∈ (markStrategyExecuted id sig now db).strategies, s.id = id →
        s.status = .executed ∧ s.txSignature = some sig) ∧
    (∀ e ∈ db.executions, e.strategyId = id → e.status = .triggered →
        { e with status := .executed, txSignature := some sig } ∈
          (markStrategyExecuted id sig now db).executions) ∧
    ((markStrategyExecuted id sig now2 (markStrategyExecuted id sig now db)).executions =
        (markStrategyExecuted id sig now db).executions) ∧
    ((markStrategyExecuted id sig now2 (markStrategyExecuted id sig now db)).strategies.map
        stratCore =
      (markStrategyExecuted id sig now db).strategies.map stratCore) ∧
    (markStrategyExecuted id sig now (markStrategyExecuted id sig now db) =
        markStrategyExecuted id sig now db) := by
  refine ⟨?_, ?_, ?_, ?_, ?_⟩
  · intro s hs hid
    obtain ⟨s0, _, heq⟩ := List.mem_map.mp hs
    by_cases h0 : s0.id = id
    · rw [← heq]
      simp [h0]
    · rw [← heq] at hid
      simp [h0] at hid
  · intro e he hid hst
    exact List.mem_map.mpr ⟨e, he, by simp [hid, hst]⟩
  · show ((markStrategyExecuted id sig now db).executions.map _) = _
    rw [show (markStrategyExecuted id sig now db).executions =
        db.executions.map (fun e =>
          if e.strategyId = id ∧ e.status = .triggered then
            { e with status := .executed, txSignature := some sig }
          else e) from rfl]
    rw [List.map_map]
    apply List.map_congr_left
    intro e _
    by_cases h0 : e.strategyId = id ∧ e.status = .triggered <;>
      simp [Function.comp, h0]
  · rw [show (markStrategyExecuted id sig now2
          (markStrategyExecuted id sig now db)).strategies =
        (markStrategyExecuted id sig now db).strategies.map (fun s =>
          if s.id = id then
            { s with status := .executed, executedAt := some now2,
                     txSignature := some sig, updatedAt := now2 }
          else s) from rfl]
    rw [show (markStrategyExecuted id sig now db).strategies =
        db.strategies.map (fun s =>
          if s.id = id then
            { s with status := .executed, executedAt := some now,
                     txSignature := some sig, updatedAt := now }
          else s) from rfl]
    rw [List.map_map, List.map_map, List.map_map]
    apply List.map_congr_left
    intro s _
    by_cases h0 : s.id = id <;> simp [Function.comp, h0, stratCore]
  · show (DB.mk _ _ : DB) = _
    congr 1
    · rw [show (markStrategyExecuted id sig now db).strategies =
          db.strategies.map (fun s =>
            if s.id = id then
              { s with status := .executed, executedAt := some now,
                       txSignature := some sig, updatedAt := now }
            else s) from rfl]
      rw [List.map_map]
      apply List.map_congr_left
      intro s _
      by_cases h0 : s.id = id <;> simp [Function.comp, h0]
    · rw [show (markStrategyExecuted id sig now db).executions =
          db.executions.map (fun e =>
            if e.strategyId = id ∧ e.status = .triggered then
              { e with status := .executed, txSignature := some sig }
            else e) from rfl]
      rw [List.map_map]
      apply List.map_congr_left
      intro e _
      by_cases h0 : e.strategyId = id ∧ e.status = .triggered <;>
        simp [Function.comp, h0]

/-- C5 witness: a triggered strategy with one triggered attempt row,
confirmed with signature "s1" at time 5 and again at time 9. -/
theorem markExecuted_idempotent_witness :
    let sT : StrategyRow :=
      ⟨"S1", "U", "M", "TOK", .buy_dip, 100, "5", 50, .triggered, 0, 0, none, none⟩
    let eT : ExecRow := ⟨"E1", "S1", 100, 90, .triggered, none, none, 1⟩
    let db : DB := ⟨[sT], [eT]⟩
    (∀ s ∈ (markStrategyExecuted "S1" "s1" 5 db).strategies, s.id = "S1" →
        s.status = .executed ∧ s.txSignature = some "s1") ∧
    (∀ e ∈ db.executions, e.strategyId = "S1" → e.status = .triggered →
        { e with status := .executed, txSignature := some "s1" } ∈
          (markStrategyExecuted "S1" "s1" 5 db).executions) ∧
    ((markStrategyExecuted "S1" "s1" 9 (markStrategyExecuted "S1" "s1" 5 db)).executions =
        (markStrategyExecuted "S1" "s1" 5 db).executions) ∧
    ((markStrategyExecuted "S1" "s1" 9
          (markStrategyExecuted "S1" "s1" 5 db)).strategies.map stratCore =
      (markStrategyExecuted "S1" "s1" 5 db).strategies.map stratCore) ∧
    (markStrategyExecuted "S1" "s1" 5 (markStrategyExecuted "S1" "s1" 5 db) =
        markStrategyExecuted "S1" "s1" 5 db) := by
  intro sT eT db
  exact markExecuted_idempotent db "S1" "s1" 5 9 (by decide)

/-- Execution preparation issues only a SELECT: the database component of
its result is always the input database. -/
lemma prepareStrategyExecution_db (qf : QuoteRequest → Except Unit QuoteResponse)
    (sf : Except Unit SwapResponse) (envMax : Option ℤ) (db : DB) (sid pk : String) :
    (prepareStrategyExecution qf sf envMax db sid pk).2.1 = db := by
  rcases hf : db.strategies.find? (fun s => s.id = sid ∧ s.status = .triggered) with _ | strat
  · simp only [prepareStrategyExecution, hf]
  · simp only [prepareStrategyExecution, hf]
    cases hq : qf ⟨(if strat.type = .buy_dip then SOL_MINT else strat.tokenMint),
        (if strat.type = .buy_dip then strat.tokenMint else SOL_MINT),
        strat.amount, strat.slippageBps, pk⟩ with
    | error e => rfl
    | ok quote =>
      rcases hb : buildSwapTransaction envMax sf quote with e2 | sw
      · cases e2 <;> simp [hb]
      · simp [hb]

/-- C4: the execute route fails with NOT_FOUND for an unknown id and with
the invalid-state NOT_TRIGGERED error for every strategy whose status is
active, paused, executed or failed; in both cases no quote is requested
from the pricing collaborator; and the operation never mutates the
database, so a triggered strategy remains triggered after a successful
preparation. -/
theorem prepareExecution_guard (qf : QuoteRequest → Except Unit QuoteResponse)
    (sf : Except Unit SwapResponse) (envMax : Option ℤ) (db : DB) (id userId pk : String) :
    (getStrategy db id userId = none →
      executeRoute qf sf envMax db id userId pk = (.error .notFound, db, false)) ∧
    (∀ strat, getStrategy db id userId = some strat →
      (strat.status = .active ∨ strat.status = .paused ∨ strat.status = .executed ∨
        strat.status = .failed) →
      executeRoute qf sf envMax db id userId pk = (.error .notTriggered, db, false)) ∧
    (executeRoute qf sf envMax db id userId pk).2.1 = db := by
  refine ⟨?_, ?_, ?_⟩
  · intro hfind
    simp only [executeRoute, hfind]
  · intro strat hfind hdisj
    have hne : strat.status ≠ .triggered := by
      rcases hdisj with h | h | h | h <;> simp [h]
    simp only [executeRoute, hfind]
    rw [if_pos hne]
  · rcases hfind : getStrategy db id userId with _ | strat
    · simp only [executeRoute, hfind]
    · by_cases hne : strat.status ≠ .triggered
      · simp only [executeRoute, hfind]
        rw [if_pos hne]
      · rcases hp : prepareStrategyExecution qf sf envMax db id pk with ⟨res, db1, q⟩
        have hdb : db1 = db := by
          have := prepareStrategyExecution_db qf sf envMax db id pk
          rw [hp] at this
          exact this
        simp only [executeRoute, hfind]
        rw [if_neg hne, hp]
        cases res <;> simpa using hdb

/-- C4 witness: a paused strategy yields NOT_TRIGGERED with no quote
requested, an unknown id yields NOT_FOUND, and the database is returned
unchanged. -/
theorem prepareExecution_guard_witness :
    let sP : StrategyRow :=
      ⟨"S1", "U", "M", "TOK", .buy_dip, 100, "5", 50, .paused, 0, 0, none, none⟩
    let db : DB := ⟨[sP], []⟩
    let qf : QuoteRequest → Except Unit QuoteResponse := fun _ => .error ()
    executeRoute qf (.error ()) none db "S1" "U" "PK" = (.error .notTriggered, db, false) ∧
    executeRoute qf (.error ()) none db "S2" "U" "PK" = (.error .notFound, db, false) ∧
    (executeRoute qf (.error ()) none db "S1" "U" "PK").2.1 = db := by
  intro sP db qf
  refine ⟨?_, ?_, ?_⟩
  · exact (prepareExecution_guard qf (.error ()) none db "S1" "U" "PK").2.1 sP rfl
      (Or.inr (Or.inl rfl))
  · exact (prepareExecution_guard qf (.error ()) none db "S2" "U" "PK").1 rfl
  · exact (prepareExecution_guard qf (.error ()) none db "S1" "U" "PK").2.2

/-- C8 counterexample: a triggered strategy with slippage tolerance 50 bps
receives a quote whose price impact is 2 % (200 bps > 50 bps), yet
prepareExecution succeeds and returns the unsigned transaction payload: the
pre-return check compares against the global MAX_SLIPPAGE_BPS default of
1000 bps, not against the strategy's own slippageBps. -/
theorem prepare_slippage_counterexample :
    let strat : StrategyRow :=
      ⟨"S1", "U", "M", "TOK", .buy_dip, 100, "1000", 50, .triggered, 0, 0, none, none⟩
    let db : DB := ⟨[strat], []⟩
    let quote : QuoteResponse := ⟨SOL_MINT, "M", "1000", "990", 2, [⟨true⟩]⟩
    let sw : SwapResponse := ⟨"tx64", 123⟩
    (prepareStrategyExecution (fun _ => .ok quote) (.ok sw) none db "S1" "PK").1 =
      .ok ⟨strat, quote, sw⟩ ∧
    quoteSlippage quote > strat.slippageBps := by
  intro strat db quote sw
  exact ⟨rfl, by decide⟩

/-- C8 amended: the only slippage check before returning is global — the
swap build fails with the slippage error exactly when the quoted impact
(parseInt(priceImpactPct)·100 bps, 100 bps when the route plan carries no
swapInfo) exceeds parseInt(MAX_SLIPPAGE_BPS) || 1000; the strategy's own
slippageBps is only forwarded inside the quote request, and whenever the
global bound is met the preparation succeeds regardless of how the impact
compares with the strategy's tolerance. -/
theorem buildSwap_slippage_global (envMax : Option ℤ) (sf : Except Unit SwapResponse)
    (q : QuoteResponse) :
    (buildSwapTransaction envMax sf q = .error .slippageTooHigh ↔
      quoteSlippage q > jsOrInt envMax 1000) ∧
    (∀ (qf : QuoteRequest → Except Unit QuoteResponse) (db : DB) (sid pk : String)
        (strat : StrategyRow) (sw : SwapResponse),
      db.strategies.find? (fun s => s.id = sid ∧ s.status = .triggered) = some strat →
      qf ⟨(if strat.type = .buy_dip then SOL_MINT else strat.tokenMint),
          (if strat.type = .buy_dip then strat.tokenMint else SOL_MINT),
          strat.amount, strat.slippageBps, pk⟩ = .ok q →
      sf = .ok sw →
      quoteSlippage q ≤ jsOrInt envMax 1000 →
      (prepareStrategyExecution qf sf envMax db sid pk).1 = .ok ⟨strat, q, sw⟩) := by
  constructor
  · by_cases hgt : quoteSlippage q > jsOrInt envMax 1000
    · simp [buildSwapTransaction, hgt]
    · rcases sf with e | sw <;> simp [buildSwapTransaction, hgt]
  · intro qf db sid pk strat sw hfind hqf hsf hle
    have hbs : buildSwapTransaction envMax sf q = .ok sw := by
      rw [hsf]
      simp [buildSwapTransaction, not_lt.mpr hle]
    simp only [prepareStrategyExecution, hfind, hqf, hbs]

/-- C8 amended witness: with MAX_SLIPPAGE_BPS unset (default 1000 bps), a
200 bps impact does not trip the check and the preparation of a strategy
with tolerance 50 bps succeeds. -/
theorem buildSwap_slippage_global_witness :
    let strat : StrategyRow :=
      ⟨"S1", "U", "M", "TOK", .buy_dip, 100, "1000", 50, .triggered, 0, 0, none, none⟩
    let db : DB := ⟨[strat], []⟩
    let quote : QuoteResponse := ⟨SOL_MINT, "M", "1000", "990", 2, [⟨true⟩]⟩
    let sw : SwapResponse := ⟨"tx64", 123⟩
    (buildSwapTransaction none (.ok sw) quote = .error .slippageTooHigh ↔
      quoteSlippage quote > jsOrInt none 1000) ∧
    (prepareStrategyExecution (fun _ => .ok quote) (.ok sw) none db "S1" "PK").1 =
      .ok ⟨strat, quote, sw⟩ := by
  intro strat db quote sw
  obtain ⟨h1, h2⟩ := buildSwap_slippage_global none (.ok sw) quote
  exact ⟨h1, h2 (fun _ => .ok quote) db "S1" "PK" strat sw (by decide) rfl rfl (by decide)⟩

/-- Inside the retry window and with the failover flag set, extra fuel is
irrelevant: the call cannot recurse again. -/
lemma callAux_failed_state {α : Type} (env : RPCEnv) (attempt : String → Except Unit α)
    (now : ℤ) (fuel : ℕ) (st : RPCState) (hst : st.primaryFailed = true)
    (hwin : ¬(now - st.lastPrimaryCheck > RETRY_INTERVAL)) :
    callAux env attempt now (fuel + 1) st = callAux env attempt now 1 st := by
  have hge : getEndpoint env now st =
      (st, match env.backup with | some b => b | none => env.primary) := by
    rcases hb : env.backup with _ | b <;> simp [getEndpoint, hst, hwin, hb]
  simp only [callAux, hge]
  cases attempt (match env.backup with | some b => b | none => env.primary) <;> simp [hst]

/-- A call that returns a result leaves the failover flag cleared. -/
lemma callAux_ok_clears {α : Type} (env : RPCEnv) (attempt : String → Except Unit α)
    (now : ℤ) :
    ∀ (fuel : ℕ) (st : RPCState) (v : α),
      (callAux env attempt now fuel st).1 = .ok v →
      (callAux env attempt now fuel st).2.1.primaryFailed = false := by
  intro fuel
  induction fuel with
  | zero => intro st v h; simp [callAux] at h
  | succ n ih =>
    intro st v h
    simp only [callAux] at h ⊢
    cases hat : attempt (getEndpoint env now st).2 with
    | ok w =>
      by_cases hpf : (getEndpoint env now st).1.primaryFailed = true
      · simp [hpf]
      · have hb : (getEndpoint env now st).1.primaryFailed = false := by simpa using hpf
        simp [hb]
    | error e =>
      rw [hat] at h
      by_cases hcond : (getEndpoint env now st).1.primaryFailed = false ∧
          (env.backup).isSome = true
      · simp only [Bool.not_eq_true, hcond, and_self, if_true, eq_self_iff_true] at h ⊢
        exact ih ⟨true, now⟩ v h
      · simp [hcond] at h

/-- C2 counterexample: with primary "P" failing and backup "B" healthy, the
first logical call completes via the backup ‐ but its success clears
`primaryFailed`, so a second call at now = 1000 ms (well inside the
30-second retry window) attempts the primary again: its endpoint trace is
["P", "B"], not ["B"], refuting "a subsequent call within the window uses
the backup directly without re-attempting the primary". -/
theorem rpc_backup_not_sticky_counterexample :
    let env : RPCEnv := ⟨"P", some "B"⟩
    let att : String → Except Unit ℕ := fun e => if e = "P" then .error () else .ok 7
    (call env att 0 ⟨false, 0⟩).1 = .ok 7 ∧
    (call env att 0 ⟨false, 0⟩).2.2 = ["P", "B"] ∧
    (call env att 1000 (call env att 0 ⟨false, 0⟩).2.1).2.2 = ["P", "B"] := by
  intro env att
  exact ⟨rfl, rfl, rfl⟩

/-- C2 amended: when the primary fails and a backup is configured, the call
retries exactly once against the backup and completes with the backup's
result; a successful call clears `primaryFailed` — so after a successful
failover the next call re-attempts the primary; a call made while
`primaryFailed` is still set (the previous failover also failed on the
backup) and within the 30-second window goes to the backup directly
without attempting the primary; and when the backup also fails the error
propagates with no further retry (exactly two attempts). -/
theorem rpc_failover_spec {α : Type} (env : RPCEnv) (attempt : String → Except Unit α)
    (now : ℤ) (st : RPCState) (b : String) (v : α) :
    (st.primaryFailed = false → env.backup = some b →
      attempt env.primary = .error () → attempt b = .ok v →
      call env attempt now st = (.ok v, ⟨false, now⟩, [env.primary, b])) ∧
    (∀ w : α, (call env attempt now st).1 = .ok w →
      (call env attempt now st).2.1.primaryFailed = false) ∧
    (st.primaryFailed = true → now - st.lastPrimaryCheck ≤ RETRY_INTERVAL →
      env.backup = some b →
      (attempt b = .ok v →
        call env attempt now st = (.ok v, ⟨false, st.lastPrimaryCheck⟩, [b])) ∧
      (attempt b = .error () → call env attempt now st = (.error (), st, [b]))) ∧
    (st.primaryFailed = false → env.backup = some b →
      attempt env.primary = .error () → attempt b = .error () →
      call env attempt now st = (.error (), ⟨true, now⟩, [env.primary, b])) := by
  refine ⟨?_, ?_, ?_, ?_⟩
  · intro hpf hb hperr hbok
    have hge : getEndpoint env now st = (st, env.primary) := by simp [getEndpoint, hpf]
    have hge2 : getEndpoint env now (⟨true, now⟩ : RPCState) = (⟨true, now⟩, b) := by
      simp [getEndpoint, hb, RETRY_INTERVAL]
    simp [call, callAux, hge, hge2, hperr, hbok, hpf, hb]
  · exact fun w => callAux_ok_clears env attempt now 2 st w
  · intro hst hwin hb
    have hge : getEndpoint env now st = (st, b) := by
      simp [getEndpoint, hst, hb, not_lt.mpr hwin]
    constructor
    · intro hbok
      have : ({ st with primaryFailed := false } : RPCState) =
          ⟨false, st.lastPrimaryCheck⟩ := rfl
      simp [call, callAux, hge, hbok, hst, this]
    · intro hberr
      simp [call, callAux, hge, hberr, hst]
  · intro hpf hb hperr hberr
    have hge : getEndpoint env now st = (st, env.primary) := by simp [getEndpoint, hpf]
    have hge2 : getEndpoint env now (⟨true, now⟩ : RPCState) = (⟨true, now⟩, b) := by
      simp [getEndpoint, hb, RETRY_INTERVAL]
    simp [call, callAux, hge, hge2, hperr, hberr, hpf, hb]

/-- C2 amended witness: the four clauses at the concrete primary/backup
configuration of the counterexample. -/
theorem rpc_failover_spec_witness :
    let env : RPCEnv := ⟨"P", some "B"⟩
    let attB : String → Except Unit ℕ := fun e => if e = "P" then .error () else .ok 7
    let attN : String → Except Unit ℕ := fun _ => .error ()
    call env attB 0 ⟨false, 0⟩ = (.ok 7, ⟨false, 0⟩, ["P", "B"]) ∧
    (call env attB 1000 ⟨true, 0⟩ = (.ok 7, ⟨false, 0⟩, ["B"]) ∧
      call env attN 1000 ⟨true, 0⟩ = (.error (), ⟨true, 0⟩, ["B"])) ∧
    call env attN 0 ⟨false, 0⟩ = (.error (), ⟨true, 0⟩, ["P", "B"]) := by
  intro env attB attN
  refine ⟨?_, ⟨?_, ?_⟩, ?_⟩
  · exact (rpc_failover_spec env attB 0 ⟨false, 0⟩ "B" 7).1 rfl rfl rfl rfl
  · exact ((rpc_failover_spec env attB 1000 ⟨true, 0⟩ "B" 7).2.2.1 rfl (by decide) rfl).1 rfl
  · exact ((rpc_failover_spec env attN 1000 ⟨true, 0⟩ "B" 7).2.2.1 rfl (by decide) rfl).2 rfl
  · exact (rpc_failover_spec env attN 0 ⟨false, 0⟩ "B" 7).2.2.2 rfl rfl rfl rfl

/-- If the signature status never resolves (no error flag, never
confirmed) and the block height never exceeds the bound, the polling loop
runs to the timeout and returns false: it does not hang. -/
lemma confirmLoop_never (sig : ℕ → Except Unit (Option SigStatus))
    (bh : ℕ → Except Unit ℤ) (lv : ℤ)
    (hsig : ∀ e, ∃ st, sig e = .ok st ∧ (st.map SigStatus.hasErr).getD false = false ∧
        (st.map isConfirmedStatus).getD false = false)
    (hbh : ∀ e, ∃ hn, bh e = .ok hn ∧ hn ≤ lv) :
    ∀ (n e : ℕ), confirmTimeout - e ≤ n → (confirmLoop sig bh lv e).1 = false := by
  intro n
  induction n with
  | zero =>
    intro e hle
    have hte : ¬e < confirmTimeout := by omega
    rw [confirmLoop.eq_def, dif_neg hte]
  | succ n ih =>
    intro e hle
    by_cases he : e < confirmTimeout
    · obtain ⟨st, hs, h1, h2⟩ := hsig e
      obtain ⟨hn, hb, hle2⟩ := hbh e
      rw [confirmLoop.eq_def, dif_pos he, hs]
      simp only [h1, h2, Bool.false_eq_true, if_false, hb]
      rw [if_neg (by omega : ¬hn > lv)]
      exact ih (e + 1000) (by omega)
    · rw [confirmLoop.eq_def, dif_neg he]

/-- The polling loop always stops within the timeout window plus one final
sleep: starting below confirmTimeout + 2000 ms of elapsed time, the elapsed
time at return is below confirmTimeout + 2000 ms, for arbitrary oracles. -/
lemma confirmLoop_elapsed (sig : ℕ → Except Unit (Option SigStatus))
    (bh : ℕ → Except Unit ℤ) (lv : ℤ) :
    ∀ (n e : ℕ), confirmTimeout - e ≤ n → e < confirmTimeout + 2000 →
      (confirmLoop sig bh lv e).2 < confirmTimeout + 2000 := by
  intro n
  induction n with
  | zero =>
    intro e hle he2
    have hte : ¬e < confirmTimeout := by omega
    rw [confirmLoop.eq_def, dif_neg hte]
    exact he2
  | succ n ih =>
    intro e hle he2
    by_cases he : e < confirmTimeout
    · rw [confirmLoop.eq_def, dif_pos he]
      cases hs : sig e with
      | error u => exact ih (e + 2000) (by omega) (by omega)
      | ok st =>
        by_cases h1 : (st.map SigStatus.hasErr).getD false = true
        · simpa [h1] using by omega
        · have h1f : (st.map SigStatus.hasErr).getD false = false := by simpa using h1
          by_cases h2 : (st.map isConfirmedStatus).getD false = true
          · simpa [h1f, h2] using by omega
          · have h2f : (st.map isConfirmedStatus).getD false = false := by simpa using h2
            simp only [h1f, h2f, Bool.false_eq_true, if_false]
            cases hb : bh e with
            | error u => exact ih (e + 2000) (by omega) (by omega)
            | ok hn =>
              by_cases hgt : hn > lv
              · simpa [hgt] using by omega
              · simp only [hgt, if_false]
                exact ih (e + 1000) (by omega) (by omega)
    · rw [confirmLoop.eq_def, dif_neg he]
      exact he2

/-- C3: confirmTransaction's polling is bounded and decided by the polled
state.  Before the 60 s timeout it returns true at the poll where the
status is confirmed or finalized; it returns false immediately at a poll
whose status carries an error, or whose block height exceeds
lastValidBlockHeight while the status is unresolved; once elapsed time
reaches the timeout it returns false; when the status never resolves and
the height never exceeds the bound it returns false rather than hanging;
and for arbitrary oracles the loop stops within the timeout window plus at
most one final 2 s sleep. -/
theorem confirmTransaction_spec (sig : ℕ → Except Unit (Option SigStatus))
    (bh : ℕ → Except Unit ℤ) (lv : ℤ) :
    (∀ (e : ℕ) (s : SigStatus), e < confirmTimeout → sig e = .ok (some s) →
      s.hasErr = false → isConfirmedStatus s = true →
      confirmLoop sig bh lv e = (true, e)) ∧
    (∀ (e : ℕ) (s : SigStatus), e < confirmTimeout → sig e = .ok (some s) →
      s.hasErr = true → confirmLoop sig bh lv e = (false, e)) ∧
    (∀ (e : ℕ) (st : Option SigStatus) (hn : ℤ), e < confirmTimeout → sig e = .ok st →
      (st.map SigStatus.hasErr).getD false = false →
      (st.map isConfirmedStatus).getD false = false →
      bh e = .ok hn → hn > lv → confirmLoop sig bh lv e = (false, e)) ∧
    (∀ e : ℕ, confirmTimeout ≤ e → confirmLoop sig bh lv e = (false, e)) ∧
    ((∀ e, ∃ st, sig e = .ok st ∧ (st.map SigStatus.hasErr).getD false = false ∧
        (st.map isConfirmedStatus).getD false = false) →
      (∀ e, ∃ hn, bh e = .ok hn ∧ hn ≤ lv) →
      (confirmTransaction sig bh lv).1 = false) ∧
    (∀ e : ℕ, e < confirmTimeout + 2000 →
      (confirmLoop sig bh lv e).2 < confirmTimeout + 2000) := by
  refine ⟨?_, ?_, ?_, ?_, ?_, ?_⟩
  · intro e s he hs hserr hconf
    rw [confirmLoop.eq_def, dif_pos he, hs]
    simp [hserr, hconf]
  · intro e s he hs hserr
    rw [confirmLoop.eq_def, dif_pos he, hs]
    simp [hserr]
  · intro e st hn he hs h1 h2 hb hgt
    rw [confirmLoop.eq_def, dif_pos he, hs]
    simp only [h1, h2, Bool.false_eq_true, if_false, hb]
    rw [if_pos hgt]
  · intro e hte
    rw [confirmLoop.eq_def, dif_neg (not_lt.mpr hte)]
  · intro hsig hbh
    exact confirmLoop_never sig bh lv hsig hbh confirmTimeout 0 (by omega)
  · intro e he2
    exact confirmLoop_elapsed sig bh lv (confirmTimeout - e + 1) e (by omega) he2

/-- C3 witness: a run that confirms at the second poll, an immediate
timeout return, the non-hanging run under never-resolving oracles, and the
elapsed-time bound from the start. -/
theorem confirmTransaction_spec_witness :
    let sigC : ℕ → Except Unit (Option SigStatus) :=
      fun e => if e = 0 then .ok none else .ok (some ⟨false, "confirmed"⟩)
    let bhC : ℕ → Except Unit ℤ := fun _ => .ok 10
    confirmLoop sigC bhC 50 1000 = (true, 1000) ∧
    confirmLoop sigC bhC 50 60000 = (false, 60000) ∧
    (confirmTransaction (fun _ => .ok none) (fun _ => .ok 10) 50).1 = false ∧
    (confirmLoop sigC bhC 50 0).2 < confirmTimeout + 2000 := by
  intro sigC bhC
  obtain ⟨h1, _, _, h4, _, h6⟩ := confirmTransaction_spec sigC bhC 50
  obtain ⟨_, _, _, _, h5, _⟩ :=
    confirmTransaction_spec (fun _ => .ok none) (fun _ => .ok 10) 50
  refine ⟨h1 1000 ⟨false, "confirmed"⟩ (by decide) rfl rfl (by decide), ?_, ?_, ?_⟩
  · exact h4 60000 (by decide)
  · exact h5 (fun e => ⟨none, rfl, rfl, rfl⟩) (fun e => ⟨10, rfl, by decide⟩)
  · exact h6 0 (by decide)

/-- C10: `BigInt("abc")` throws a SyntaxError; `validateAmount` does not
catch it, so for a request whose amount is the malformed numeral "abc"
(every other field valid) `validateStrategyRequest` throws instead of
returning a validation-error list, and the strategy-creation route aborts
into the worker's generic 500 INTERNAL_ERROR handler rather than returning
a 400 validation result for the amount field. -/
theorem validateAmount_throws :
    validateAmount "abc" = .error () ∧
    validateStrategyRequest (fun _ => true)
      ⟨"m", "T", some .buy_dip, some 1, "abc", some 50⟩ 1000 = .error () ∧
    postStrategy (fun _ => true) none ⟨[], []⟩ "U"
      ⟨"m", "T", some .buy_dip, some 1, "abc", some 50⟩ = .internalError := by
  exact ⟨rfl, rfl, rfl⟩

end Velocity













